import Mathlib

set_option maxHeartbeats 1000000

/-!
Verification development for the superscript compiler front end.

The program is embedded shallowly:

Part A models the combinator kernel of src/parser.rs: the Parser trait
(a matcher maps the remaining input to the number of consumed units or
non-match), the primitive matchers (char, RangeInclusive, predicate,
str) and the combinators Optional, Repetition, Not, Peek, Sequence,
Choice, together with the Cursor (full source plus byte index).
Source text is modelled as a list of characters and every consumed
length counts characters; the Rust code counts UTF-8 bytes, but every
matcher reports the length of the prefix it consumed, so the embedding
is faithful up to the unit of measurement (one character of the list
stands for its UTF-8 encoding).  The Repetition loop of the source
("while let Some(len) = self.0.parse(s)") does not terminate when the
inner matcher succeeds consuming zero bytes, so the semantics is given
with explicit fuel: an outer none models a run that has not finished
within the given fuel, and the relation MRun quantifies the fuel away.

Part B models the concrete parser of src/main.rs (skip_comments, the
OPERATORS table, parse_expression, parse_identifier, parse_number,
parse_statement) over the matchers it actually builds.  Every matcher
that src/main.rs places under repeat consumes exactly one character
when it succeeds, which makes the specialized repetition structurally
recursive.

Part C models src/ast.rs, src/scoped_hash_map.rs and
src/type_checker.rs.
-/

namespace Superscript

/-- Matchers of src/parser.rs: chr, range, pred and str are the four
primitive Parser impls (for char, RangeInclusive of char, FnMut of char
to bool, and str); opt, rep, mnot, mpeek, seq and choice are the
Optional, Repetition, Not, Peek, Sequence and Choice wrappers. -/
inductive Matcher : Type where
  | chr (c : Char)
  | range (lo hi : Char)
  | pred (p : Char → Bool)
  | str (lit : List Char)
  | opt (m : Matcher)
  | rep (m : Matcher)
  | mnot (m : Matcher)
  | mpeek (m : Matcher)
  | seq (m₁ m₂ : Matcher)
  | choice (m₁ m₂ : Matcher)

/-- Fuel-indexed run of a matcher on the remaining input, following the
parse methods of src/parser.rs line by line.  The result some (some k)
is a match consuming k characters, some none is a non-match, and none
means the run did not finish within the fuel (the Repetition loop of
the source diverges when its inner matcher succeeds with length zero;
every other case merely burns one unit of fuel per recursive call). -/
def mrunF : Nat → Matcher → List Char → Option (Option Nat)
  | 0, _, _ => none
  | fuel + 1, m, s =>
    match m with
    | .chr c =>
      some (match s with
        | [] => none
        | c₂ :: _ => if c₂ = c then some 1 else none)
    | .range lo hi =>
      some (match s with
        | [] => none
        | c₂ :: _ => if lo ≤ c₂ ∧ c₂ ≤ hi then some 1 else none)
    | .pred p =>
      some (match s with
        | [] => none
        | c₂ :: _ => if p c₂ then some 1 else none)
    | .str lit => some (if lit.isPrefixOf s then some lit.length else none)
    | .opt m₁ =>
      match mrunF fuel m₁ s with
      | none => none
      | some r => some (some (r.getD 0))
    | .rep m₁ =>
      match mrunF fuel m₁ s with
      | none => none
      | some none => some (some 0)
      | some (some k) =>
        match mrunF fuel (.rep m₁) (s.drop k) with
        | none => none
        | some none => none
        | some (some len) => some (some (k + len))
    | .mnot m₁ =>
      match mrunF fuel m₁ s with
      | none => none
      | some none => some (some 0)
      | some (some _) => some none
    | .mpeek m₁ =>
      match mrunF fuel m₁ s with
      | none => none
      | some none => some none
      | some (some _) => some (some 0)
    | .seq m₁ m₂ =>
      match mrunF fuel m₁ s with
      | none => none
      | some none => some none
      | some (some k) =>
        match mrunF fuel m₂ (s.drop k) with
        | none => none
        | some none => some none
        | some (some k₂) => some (some (k + k₂))
    | .choice m₁ m₂ =>
      match mrunF fuel m₁ s with
      | none => none
      | some none => mrunF fuel m₂ s
      | some (some k) => some (some k)

/-- MRun m s r holds when the run of matcher m on input s finishes with
result r for some amount of fuel (r is some k for a match of length k,
none for a non-match). -/
def MRun (m : Matcher) (s : List Char) (r : Option Nat) : Prop :=
  ∃ fuel, mrunF fuel m s = some r

/-- Adding fuel never changes a finished run. -/
theorem mrunF_mono : ∀ (f f' : Nat) (m : Matcher) (s : List Char) (r : Option Nat),
    f ≤ f' → mrunF f m s = some r → mrunF f' m s = some r := by
  intro f
  induction f with
  | zero => intro f' m s r _ h; simp [mrunF] at h
  | succ f ih =>
    intro f' m s r hle h
    obtain ⟨f'', rfl⟩ : ∃ f'', f' = f'' + 1 := ⟨f' - 1, by omega⟩
    have hle' : f ≤ f'' := by omega
    cases m with
    | chr c => simpa [mrunF] using h
    | range lo hi => simpa [mrunF] using h
    | pred p => simpa [mrunF] using h
    | str lit => simpa [mrunF] using h
    | opt m₁ =>
      simp only [mrunF] at h ⊢
      cases hin : mrunF f m₁ s with
      | none => rw [hin] at h; exact absurd h (by simp)
      | some r₁ => rw [hin] at h; rw [ih f'' m₁ s r₁ hle' hin]; exact h
    | rep m₁ =>
      simp only [mrunF] at h ⊢
      cases hin : mrunF f m₁ s with
      | none => rw [hin] at h; exact absurd h (by simp)
      | some r₁ =>
        rw [hin] at h; rw [ih f'' m₁ s r₁ hle' hin]
        cases r₁ with
        | none => exact h
        | some k =>
          simp only at h ⊢
          cases hin₂ : mrunF f (.rep m₁) (s.drop k) with
          | none => rw [hin₂] at h; exact absurd h (by simp)
          | some r₂ => rw [hin₂] at h; rw [ih f'' (.rep m₁) (s.drop k) r₂ hle' hin₂]; exact h
    | mnot m₁ =>
      simp only [mrunF] at h ⊢
      cases hin : mrunF f m₁ s with
      | none => rw [hin] at h; exact absurd h (by simp)
      | some r₁ => rw [hin] at h; rw [ih f'' m₁ s r₁ hle' hin]; exact h
    | mpeek m₁ =>
      simp only [mrunF] at h ⊢
      cases hin : mrunF f m₁ s with
      | none => rw [hin] at h; exact absurd h (by simp)
      | some r₁ => rw [hin] at h; rw [ih f'' m₁ s r₁ hle' hin]; exact h
    | seq m₁ m₂ =>
      simp only [mrunF] at h ⊢
      cases hin : mrunF f m₁ s with
      | none => rw [hin] at h; exact absurd h (by simp)
      | some r₁ =>
        rw [hin] at h; rw [ih f'' m₁ s r₁ hle' hin]
        cases r₁ with
        | none => exact h
        | some k =>
          simp only at h ⊢
          cases hin₂ : mrunF f m₂ (s.drop k) with
          | none => rw [hin₂] at h; exact absurd h (by simp)
          | some r₂ => rw [hin₂] at h; rw [ih f'' m₂ (s.drop k) r₂ hle' hin₂]; exact h
    | choice m₁ m₂ =>
      simp only [mrunF] at h ⊢
      cases hin : mrunF f m₁ s with
      | none => rw [hin] at h; exact absurd h (by simp)
      | some r₁ =>
        rw [hin] at h; rw [ih f'' m₁ s r₁ hle' hin]
        cases r₁ with
        | none => exact ih f'' m₂ s r hle' h
        | some k => exact h

/-- A finished run is fuel-independent: MRun is a partial function. -/
theorem MRun_det {m : Matcher} {s : List Char} {r r' : Option Nat}
    (h : MRun m s r) (h' : MRun m s r') : r = r' := by
  obtain ⟨f, hf⟩ := h
  obtain ⟨f', hf'⟩ := h'
  have h₁ := mrunF_mono f (f + f') m s r (by omega) hf
  have h₂ := mrunF_mono f' (f + f') m s r' (by omega) hf'
  rw [h₁] at h₂
  exact Option.some.inj h₂

/-- A match never consumes more than the remaining input. -/
theorem mrunF_le : ∀ (f : Nat) (m : Matcher) (s : List Char) (k : Nat),
    mrunF f m s = some (some k) → k ≤ s.length := by
  intro f
  induction f with
  | zero => intro m s k h; simp [mrunF] at h
  | succ f ih =>
    intro m s k h
    cases m with
    | chr c =>
      cases s with
      | nil => simp [mrunF] at h
      | cons c₂ rest =>
        simp only [mrunF] at h
        split at h
        · simp at h; simp [← h]
        · simp at h
    | range lo hi =>
      cases s with
      | nil => simp [mrunF] at h
      | cons c₂ rest =>
        simp only [mrunF] at h
        split at h
        · simp at h; simp [← h]
        · simp at h
    | pred p =>
      cases s with
      | nil => simp [mrunF] at h
      | cons c₂ rest =>
        simp only [mrunF] at h
        split at h
        · simp at h; simp [← h]
        · simp at h
    | str lit =>
      simp only [mrunF] at h
      split at h
      · next hpre =>
        have hp : lit <+: s := List.isPrefixOf_iff_prefix.mp hpre
        have hl := hp.length_le
        simp only [Option.some.injEq] at h
        omega
      · simp at h
    | opt m₁ =>
      simp only [mrunF] at h
      cases hin : mrunF f m₁ s with
      | none => rw [hin] at h; simp at h
      | some r₁ =>
        rw [hin] at h
        simp only [Option.some.injEq] at h
        cases r₁ with
        | none => simp at h; omega
        | some k₁ =>
          have := ih m₁ s k₁ hin
          simp at h; omega
    | rep m₁ =>
      simp only [mrunF] at h
      cases hin : mrunF f m₁ s with
      | none => rw [hin] at h; simp at h
      | some r₁ =>
        rw [hin] at h
        cases r₁ with
        | none => simp at h; omega
        | some k₁ =>
          simp only at h
          cases hin₂ : mrunF f (.rep m₁) (s.drop k₁) with
          | none => rw [hin₂] at h; simp at h
          | some r₂ =>
            rw [hin₂] at h
            cases r₂ with
            | none => simp at h
            | some len =>
              simp only [Option.some.injEq] at h
              have h₁ := ih m₁ s k₁ hin
              have h₂ := ih (.rep m₁) (s.drop k₁) len hin₂
              simp [List.length_drop] at h₂
              omega
    | mnot m₁ =>
      simp only [mrunF] at h
      cases hin : mrunF f m₁ s with
      | none => rw [hin] at h; simp at h
      | some r₁ =>
        rw [hin] at h
        cases r₁ with
        | none => simp at h; omega
        | some k₁ => simp at h
    | mpeek m₁ =>
      simp only [mrunF] at h
      cases hin : mrunF f m₁ s with
      | none => rw [hin] at h; simp at h
      | some r₁ =>
        rw [hin] at h
        cases r₁ with
        | none => simp at h
        | some k₁ => simp at h; omega
    | seq m₁ m₂ =>
      simp only [mrunF] at h
      cases hin : mrunF f m₁ s with
      | none => rw [hin] at h; simp at h
      | some r₁ =>
        rw [hin] at h
        cases r₁ with
        | none => simp at h
        | some k₁ =>
          simp only at h
          cases hin₂ : mrunF f m₂ (s.drop k₁) with
          | none => rw [hin₂] at h; simp at h
          | some r₂ =>
            rw [hin₂] at h
            cases r₂ with
            | none => simp at h
            | some k₂ =>
              simp only [Option.some.injEq] at h
              have h₁ := ih m₁ s k₁ hin
              have h₂ := ih m₂ (s.drop k₁) k₂ hin₂
              simp [List.length_drop] at h₂
              omega
    | choice m₁ m₂ =>
      simp only [mrunF] at h
      cases hin : mrunF f m₁ s with
      | none => rw [hin] at h; simp at h
      | some r₁ =>
        rw [hin] at h
        cases r₁ with
        | none => exact ih m₂ s k h
        | some k₁ =>
          simp only [Option.some.injEq] at h
          have := ih m₁ s k₁ hin
          omega

/-- The Repetition loop never finishes when its inner matcher succeeds
with length zero: with not applied to the character x on input a, every
iteration matches consuming nothing, so no amount of fuel completes the
run.  This mirrors the source loop "while let Some(len) = parse(s)"
whose state never changes when len is 0. -/
theorem rep_mnot_no_fuel :
    ∀ fuel, mrunF fuel (.rep (.mnot (.chr 'x'))) (['a']) = none := by
  intro fuel
  induction fuel with
  | zero => rfl
  | succ f ih =>
    have hinner : mrunF f (.mnot (.chr 'x')) (['a']) = some (some 0) ∨
        mrunF f (.mnot (.chr 'x')) (['a']) = none := by
      cases f with
      | zero => right; rfl
      | succ f₁ =>
        cases f₁ with
        | zero => right; rfl
        | succ f₂ => left; simp [mrunF]
    simp only [mrunF]
    rcases hinner with hinner | hinner
    · rw [hinner]
      simp only [List.drop_zero]
      rw [ih]
    · rw [hinner]

/-- RepSum m s len holds when len is the sum of the lengths of the
successive matches of m against s, the decomposition the spec ascribes
to repeat. -/
inductive RepSum (m : Matcher) : List Char → Nat → Prop where
  | done {s : List Char} (h : MRun m s none) : RepSum m s 0
  | step {s : List Char} {k len : Nat} (h₁ : MRun m s (some k))
      (h₂ : RepSum m (s.drop k) len) : RepSum m s (k + len)

/-- A matcher whose run finishes on every input. -/
def MTotal (m : Matcher) : Prop := ∀ s, ∃ r, MRun m s r

/-- A matcher that consumes at least one character whenever it matches.
Every matcher that the program passes to repeat has this property. -/
def Consuming (m : Matcher) : Prop := ∀ s k, MRun m s (some k) → 1 ≤ k

theorem rep_total_sum_aux (m : Matcher) (h₁ : MTotal m) (h₂ : Consuming m) :
    ∀ (n : Nat) (s : List Char), s.length ≤ n →
      ∃ len, MRun (.rep m) s (some len) ∧ RepSum m s len := by
  intro n
  induction n with
  | zero =>
    intro s hs
    obtain ⟨r, fuel, hr⟩ := h₁ s
    cases r with
    | none =>
      refine ⟨0, ⟨fuel + 1, ?_⟩, RepSum.done ⟨fuel, hr⟩⟩
      simp only [mrunF]; rw [hr]
    | some k =>
      have hk := h₂ s k ⟨fuel, hr⟩
      have hle := mrunF_le fuel m s k hr
      exact absurd hle (by omega)
  | succ n ih =>
    intro s hs
    obtain ⟨r, fuel, hr⟩ := h₁ s
    cases r with
    | none =>
      refine ⟨0, ⟨fuel + 1, ?_⟩, RepSum.done ⟨fuel, hr⟩⟩
      simp only [mrunF]; rw [hr]
    | some k =>
      have hk := h₂ s k ⟨fuel, hr⟩
      have hle := mrunF_le fuel m s k hr
      have hd : (s.drop k).length ≤ n := by
        rw [List.length_drop]; omega
      obtain ⟨len, ⟨fuel₂, hrep⟩, hsum⟩ := ih (s.drop k) hd
      refine ⟨k + len, ⟨max fuel fuel₂ + 1, ?_⟩, RepSum.step ⟨fuel, hr⟩ hsum⟩
      have e₁ := mrunF_mono fuel (max fuel fuel₂) m s (some k) (Nat.le_max_left _ _) hr
      have e₂ := mrunF_mono fuel₂ (max fuel fuel₂) (.rep m) (s.drop k) (some len)
        (Nat.le_max_right _ _) hrep
      simp [mrunF, e₁, e₂]

/-- Cursor of src/parser.rs: the full source and the current byte
index (here: character index). -/
structure Cursor where
  s : List Char
  i : Nat
deriving DecidableEq, Repr

/-- Cursor parse of src/parser.rs, factored over the matcher outcome r
on the remaining input source drop i: a match of length k returns the
consumed slice and advances i by k; a non-match returns an error
carrying the current i and leaves the cursor unchanged. -/
def Cursor.parseRes (c : Cursor) (r : Option Nat) : Except Nat (List Char) × Cursor :=
  match r with
  | some k => (Except.ok ((c.s.drop c.i).take k), ⟨c.s, c.i + k⟩)
  | none => (Except.error c.i, c)

/-- Claim C6, counterexample to the claim as stated.  The matcher not of
chr x succeeds on the cursor state with source a and index 0, yet the
successful parse leaves the byte index unchanged at 0: a successful
Cursor parse does not strictly increase i when the matcher reports
length zero (not, peek, optional and an empty repeat all do). -/
theorem c6_zero_advance_cex :
    MRun (Matcher.mnot (Matcher.chr 'x'))
      ((Cursor.mk ['a'] 0).s.drop (Cursor.mk ['a'] 0).i) (some 0) ∧
    (Cursor.parseRes ⟨['a'], 0⟩ (some 0)).1 = Except.ok [] ∧
    (Cursor.parseRes ⟨['a'], 0⟩ (some 0)).2.i = (Cursor.mk ['a'] 0).i :=
  ⟨⟨2, by decide⟩, rfl, rfl⟩

/-- Claim C6 (amended): for every matcher and every cursor state whose
index is within the source, a successful Cursor parse advances the byte
index i by exactly the matcher's reported length (which may be zero, so
the increase is not always strict), never decreases it, never moves it
past the source length, and returns the consumed slice; a failed parse
leaves the cursor unchanged and reports an error at the current i. -/
theorem c6_cursor_parse_spec (m : Matcher) (c : Cursor) (r : Option Nat)
    (hrun : MRun m (c.s.drop c.i) r) (hi : c.i ≤ c.s.length) :
    (∀ k, r = some k →
      (c.parseRes r).2.i = c.i + k ∧
      c.i ≤ (c.parseRes r).2.i ∧
      (c.parseRes r).2.i ≤ c.s.length ∧
      (c.parseRes r).1 = Except.ok ((c.s.drop c.i).take k)) ∧
    (r = none → (c.parseRes r).2 = c ∧ (c.parseRes r).1 = Except.error c.i) := by
  constructor
  · rintro k rfl
    obtain ⟨fuel, hf⟩ := hrun
    have hk := mrunF_le fuel m (c.s.drop c.i) k hf
    rw [List.length_drop] at hk
    refine ⟨rfl, ?_, ?_, rfl⟩
    · show c.i ≤ c.i + k
      omega
    · show c.i + k ≤ c.s.length
      omega
  · rintro rfl
    exact ⟨rfl, rfl⟩

/-- Witness for c6_cursor_parse_spec: the matcher chr a on the cursor
with source a b and index 0 matches with length 1 and the parse
advances the index to 1, within the source length 2. -/
theorem c6_cursor_parse_spec_witness :
    (Cursor.parseRes ⟨['a', 'b'], 0⟩ (some 1)).2.i = 0 + 1 ∧
    (Cursor.parseRes ⟨['a', 'b'], 0⟩ (some 1)).2.i ≤ 2 := by
  have h := c6_cursor_parse_spec (Matcher.chr 'a') ⟨['a', 'b'], 0⟩ (some 1)
    ⟨1, by decide⟩ (by decide)
  exact ⟨(h.1 1 rfl).1, (h.1 1 rfl).2.2.1⟩

/-- Claim C7, counterexample to the claim as stated.  With the matcher
not of chr x (which always matches consuming zero characters) on input
a, the repeat loop of the source runs forever, so repeat is not a total
function: no run of rep finishes with any result at all, in particular
it does not match. -/
theorem c7_rep_diverges_cex :
    ¬ ∃ r, MRun (Matcher.rep (Matcher.mnot (Matcher.chr 'x'))) (['a']) r := by
  rintro ⟨r, fuel, h⟩
  rw [rep_mnot_no_fuel fuel] at h
  exact Option.noConfusion h

/-- Claim C7 (amended): for every matcher m whose runs always finish and
whose successful matches always consume at least one character (true of
every matcher the program passes to repeat), repeat of m matches on
every input, and the length it consumes is the sum of the lengths of the
successive matches of m, possibly zero. -/
theorem c7_rep_total_sum (m : Matcher) (h₁ : MTotal m) (h₂ : Consuming m) (s : List Char) :
    ∃ len, MRun (Matcher.rep m) s (some len) ∧ RepSum m s len :=
  rep_total_sum_aux m h₁ h₂ s.length s le_rfl

/-- The single-character matcher always finishes. -/
theorem chr_total (c₀ : Char) : MTotal (Matcher.chr c₀) := by
  intro s
  cases s with
  | nil => exact ⟨none, 1, by simp [mrunF]⟩
  | cons c rest => exact ⟨if c = c₀ then some 1 else none, 1, by simp [mrunF]⟩

/-- The single-character matcher consumes one character when it matches. -/
theorem chr_consuming (c₀ : Char) : Consuming (Matcher.chr c₀) := by
  rintro s k ⟨fuel, h⟩
  cases fuel with
  | zero => simp [mrunF] at h
  | succ f =>
    cases s with
    | nil => simp [mrunF] at h
    | cons c rest =>
      simp only [mrunF] at h
      split at h
      · simp at h; omega
      · simp at h

/-- Witness for c7_rep_total_sum: repeat of chr a on input a a b
matches, consuming the sum of the successive matches. -/
theorem c7_rep_total_sum_witness :
    ∃ len, MRun (Matcher.rep (Matcher.chr 'a')) (['a', 'a', 'b']) (some len) ∧
      RepSum (Matcher.chr 'a') (['a', 'a', 'b']) len :=
  c7_rep_total_sum (Matcher.chr 'a') (chr_total 'a') (chr_consuming 'a') (['a', 'a', 'b'])

/-!
Part B: the concrete parser of src/main.rs.

The parser functions of src/main.rs drive a Cursor through the source
and may fail with a located error; the embedding threads the cursor
explicitly and wraps results in Option, where none models fuel
exhaustion: every recursive parser function and loop burns explicit
fuel, which only matters for inputs far larger than the ones examined
here.  The concrete matchers that src/main.rs builds are embedded as
total functions from the remaining input to an optional consumed
length, one definition per Parser impl or combinator the file
instantiates.  The pattern "if let Ok of cursor parse" is embedded by
tryCM (a failed parse leaves the cursor unchanged and the branch is
not taken), "cursor.parse(m)?" by parseCM, and "cursor.expect(s)?" by
expectCM.  The arms of parse_expression and parse_statement are split
into one small definition per arm, each taking the relevant
continuation as an argument.  The mark_location bookkeeping of
src/main.rs (which only inserts into the location map and returns the
expression unchanged) is dropped here; the location map itself is
modelled in Part C.
-/

/-- Parse error of src/error.rs: a byte index into the source and a
message. -/
structure PErr where
  i : Nat
  msg : String
deriving DecidableEq, Repr

/-- A parser computation: from the cursor to fuel exhaustion (none), a
located error, or a value with the advanced cursor. -/
def P (α : Type) : Type :=
  Cursor → Option (Except PErr (α × Cursor))

/-- Parser impl for char of src/parser.rs. -/
def mChar (c₀ : Char) : List Char → Option Nat
  | [] => none
  | c :: _ => if c = c₀ then some 1 else none

/-- Parser impl for RangeInclusive of char of src/parser.rs. -/
def mRange (lo hi : Char) : List Char → Option Nat
  | [] => none
  | c :: _ => if lo ≤ c ∧ c ≤ hi then some 1 else none

/-- Parser impl for char predicates of src/parser.rs. -/
def mPred (p : Char → Bool) : List Char → Option Nat
  | [] => none
  | c :: _ => if p c then some 1 else none

/-- Parser impl for str of src/parser.rs. -/
def mStr (lit : List Char) (s : List Char) : Option Nat :=
  if lit.isPrefixOf s then some lit.length else none

/-- Not combinator of src/parser.rs. -/
def mNot (m : List Char → Option Nat) (s : List Char) : Option Nat :=
  match m s with
  | some _ => none
  | none => some 0

/-- Peek combinator of src/parser.rs. -/
def mPeek (m : List Char → Option Nat) (s : List Char) : Option Nat :=
  match m s with
  | some _ => some 0
  | none => none

/-- Sequence combinator of src/parser.rs. -/
def mSeq (m₁ m₂ : List Char → Option Nat) (s : List Char) : Option Nat :=
  match m₁ s with
  | none => none
  | some k =>
    match m₂ (s.drop k) with
    | none => none
    | some k₂ => some (k + k₂)

/-- Repetition combinator of src/parser.rs, specialized to the matchers
src/main.rs actually places under repeat (character predicates, a
character range, and sequence of not and any_char): each of those
consumes exactly one character whenever it succeeds, and fails on the
empty input, so each loop iteration drops exactly one character. -/
def mRepeatHead (m : List Char → Option Nat) : List Char → Nat
  | [] => 0
  | c :: rest =>
    match m (c :: rest) with
    | some _ => 1 + mRepeatHead m rest
    | none => 0

/-- Repetition always matches (with the total consumed length). -/
def mRepeat (m : List Char → Option Nat) (s : List Char) : Option Nat :=
  some (mRepeatHead m s)

/-- Cursor parse of src/parser.rs as used by src/main.rs: run the
matcher on the remaining input; on a match return the consumed slice
and advance, otherwise an error at the current index. -/
def parseCM (m : List Char → Option Nat) (c : Cursor) : Except PErr (List Char × Cursor) :=
  match m (c.s.drop c.i) with
  | some k => Except.ok ((c.s.drop c.i).take k, ⟨c.s, c.i + k⟩)
  | none => Except.error ⟨c.i, ""⟩

/-- The pervasive pattern "if let Ok of cursor parse" of src/main.rs: a
failed parse leaves the cursor unchanged and the branch is not taken. -/
def tryCM (m : List Char → Option Nat) (c : Cursor) : Bool × Cursor :=
  match m (c.s.drop c.i) with
  | some k => (true, ⟨c.s, c.i + k⟩)
  | none => (false, c)

/-- Cursor expect of src/parser.rs: parse a literal, with the error
message naming the expected literal. -/
def expectCM (lit : List Char) (c : Cursor) : Except PErr Cursor :=
  match mStr lit (c.s.drop c.i) with
  | some k => Except.ok ⟨c.s, c.i + k⟩
  | none => Except.error ⟨c.i, ("expected " ++ String.mk lit)⟩

/-- any_char of src/main.rs. -/
def any_char (_c : Char) : Bool := true

/-- identifier_start_char of src/main.rs. -/
def identifier_start_char (c : Char) : Bool :=
  (decide ('a' ≤ c) && decide (c ≤ 'z')) || (decide ('A' ≤ c) && decide (c ≤ 'Z')) || (c == '_')

/-- identifier_char of src/main.rs. -/
def identifier_char (c : Char) : Bool :=
  identifier_start_char c || (decide ('0' ≤ c) && decide (c ≤ '9'))

/-- The leading "cursor.parse(repeat(char::is_whitespace))?" of
skip_comments (repeat always matches, so the question mark never
fires). -/
def wsSkip (c : Cursor) : Cursor :=
  ⟨c.s, c.i + mRepeatHead (mPred Char.isWhitespace) (c.s.drop c.i)⟩

/-- The block-comment body "cursor.parse(repeat(sequence(not of star
slash, any_char)))?" of skip_comments. -/
def blockSkip (c : Cursor) : Cursor :=
  ⟨c.s, c.i + mRepeatHead (mSeq (mNot (mStr (['*', '/']))) (mPred any_char)) (c.s.drop c.i)⟩

/-- The line-comment body "cursor.parse(repeat(sequence(not of newline,
any_char)))?" of skip_comments. -/
def lineSkip (c : Cursor) : Cursor :=
  ⟨c.s, c.i + mRepeatHead (mSeq (mNot (mChar '\n')) (mPred any_char)) (c.s.drop c.i)⟩

/-- skip_comments of src/main.rs: whitespace, then a loop consuming
block comments (slash star through star slash, the closing delimiter
expected) and line comments (double slash up to the newline), with
whitespace again after each comment. -/
def skip_comments : Nat → Cursor → Option (Except PErr Cursor)
  | 0, _ => none
  | fuel + 1, c =>
    match tryCM (mStr (['/', '*'])) (wsSkip c) with
    | (true, c) =>
      match expectCM (['*', '/']) (blockSkip c) with
      | Except.error e => some (Except.error e)
      | Except.ok c => skip_comments fuel c
    | (false, c) =>
      match tryCM (mStr (['/', '/'])) c with
      | (true, c) => skip_comments fuel (lineSkip c)
      | (false, c) => some (Except.ok c)

/-- ArithmeticOperation of src/ast.rs. -/
inductive ArithmeticOperation : Type where
  | add | subtract | multiply | divide | remainder
deriving DecidableEq, Repr

/-- RelationalOperation of src/ast.rs. -/
inductive RelationalOperation : Type where
  | equal | notEqual | lessThan | lessThanOrEqual | greaterThan | greaterThanOrEqual
deriving DecidableEq, Repr

/-- LogicalOperation of src/ast.rs. -/
inductive LogicalOperation : Type where
  | land | lor
deriving DecidableEq, Repr

/-- Expression of src/ast.rs (identifier and number slices kept as
strings). -/
inductive Expr : Type where
  | number (s : String)
  | name (s : String)
  | arithmetic (op : ArithmeticOperation) (left right : Expr)
  | relational (op : RelationalOperation) (left right : Expr)
  | logical (op : LogicalOperation) (left right : Expr)
  | notE (e : Expr)
  | assign (nm e : Expr)
  | call (f : Expr) (arguments : List Expr)
  | classInstantiation (cls : String) (arguments : List Expr)
  | propertyAccess (obj : Expr) (prop : String)
  | methodCall (obj : Expr) (method : String) (arguments : List Expr)
  | this
deriving Repr

/-- Expression constructor add of src/ast.rs. -/
def Expr.add (l r : Expr) : Expr := .arithmetic .add l r

/-- Expression constructor subtract of src/ast.rs. -/
def Expr.subtract (l r : Expr) : Expr := .arithmetic .subtract l r

/-- Expression constructor multiply of src/ast.rs. -/
def Expr.multiply (l r : Expr) : Expr := .arithmetic .multiply l r

/-- Expression constructor divide of src/ast.rs. -/
def Expr.divide (l r : Expr) : Expr := .arithmetic .divide l r

/-- Expression constructor remainder of src/ast.rs. -/
def Expr.remainder (l r : Expr) : Expr := .arithmetic .remainder l r

/-- Expression constructor equal of src/ast.rs. -/
def Expr.equal (l r : Expr) : Expr := .relational .equal l r

/-- Expression constructor not_equal of src/ast.rs. -/
def Expr.not_equal (l r : Expr) : Expr := .relational .notEqual l r

/-- Expression constructor less_than of src/ast.rs. -/
def Expr.less_than (l r : Expr) : Expr := .relational .lessThan l r

/-- Expression constructor less_than_or_equal of src/ast.rs. -/
def Expr.less_than_or_equal (l r : Expr) : Expr := .relational .lessThanOrEqual l r

/-- Expression constructor greater_than of src/ast.rs: it builds a
RelationalExpression with operation GreaterThan. -/
def Expr.greater_than (l r : Expr) : Expr := .relational .greaterThan l r

/-- Expression constructor greater_than_or_equal of src/ast.rs: it
builds a RelationalExpression with operation GreaterThanOrEqual. -/
def Expr.greater_than_or_equal (l r : Expr) : Expr := .relational .greaterThanOrEqual l r

/-- OperatorLevel of src/main.rs.  The source variants are
BinaryLeftToRight, BinaryRightToLeft and the two unary variants (the
unary names are shortened here to satisfy naming restrictions of this
development). -/
inductive OperatorLevel : Type where
  | binaryLeftToRight (ops : List (List Char × (Expr → Expr → Expr)))
  | binaryRightToLeft (ops : List (List Char × (Expr → Expr → Expr)))
  | unaryPre (ops : List (List Char × (Expr → Expr)))
  | unaryPost (ops : List (List Char × (Expr → Expr)))

/-- OPERATORS of src/main.rs lines 75 to 98, transcribed level by level
and pair by pair.  Note the table has five levels, none of which lists
a logical or a prefix operator, and that the greater-than spelling is
paired with the greater_than_or_equal constructor and vice versa. -/
def OPERATORS : List OperatorLevel := [
  .binaryRightToLeft [((['=']), Expr.assign)],
  .binaryLeftToRight [((['=', '=']), Expr.equal), ((['!', '=']), Expr.not_equal)],
  .binaryLeftToRight [((['<', '=']), Expr.less_than_or_equal), ((['<']), Expr.less_than),
    ((['>', '=']), Expr.greater_than), ((['>']), Expr.greater_than_or_equal)],
  .binaryLeftToRight [((['+']), Expr.add), ((['-']), Expr.subtract)],
  .binaryLeftToRight [((['*']), Expr.multiply), ((['/']), Expr.divide),
    ((['%']), Expr.remainder)]
]

/-- parse_binary_operator of src/main.rs: try each spelling in table
order, returning the paired constructor of the first that parses (the
cursor advanced past it) or none with the cursor unchanged. -/
def parse_binary_operator : List (List Char × (Expr → Expr → Expr)) → Cursor →
    Option (Expr → Expr → Expr) × Cursor
  | [], c => (none, c)
  | (tok, f) :: rest, c =>
    match tryCM (mStr tok) c with
    | (true, c) => (some f, c)
    | (false, c) => parse_binary_operator rest c

/-- parse_unary_operator of src/main.rs. -/
def parse_unary_operator : List (List Char × (Expr → Expr)) → Cursor →
    Option (Expr → Expr) × Cursor
  | [], c => (none, c)
  | (tok, f) :: rest, c =>
    match tryCM (mStr tok) c with
    | (true, c) => (some f, c)
    | (false, c) => parse_unary_operator rest c

/-- parse_identifier of src/main.rs. -/
def parse_identifier (c : Cursor) : Except PErr (List Char × Cursor) :=
  parseCM (mSeq (mPred identifier_start_char) (mRepeat (mPred identifier_char))) c

/-- keyword of src/main.rs: the literal followed by not of
identifier_char. -/
def keywordM (k : List Char) : List Char → Option Nat :=
  mSeq (mStr k) (mNot (mPred identifier_char))

/-- parse_number of src/main.rs. -/
def parse_number (c : Cursor) : Except PErr (List Char × Cursor) :=
  parseCM (mRepeat (mRange '0' '9')) c

/-- The while loop of the BinaryLeftToRight arm of parse_expression of
src/main.rs: while an operator of this level parses, skip comments,
parse the right operand (pe, the action for one level higher), fold
into the accumulator, skip comments. -/
def ltrLoop : Nat → P Expr → List (List Char × (Expr → Expr → Expr)) → Expr → P Expr
  | 0, _, _, _, _ => none
  | fuel + 1, pe, ops, left, c =>
    match parse_binary_operator ops c with
    | (some f, c) =>
      match skip_comments fuel c with
      | none => none
      | some (Except.error e) => some (Except.error e)
      | some (Except.ok c) =>
        match pe c with
        | none => none
        | some (Except.error e) => some (Except.error e)
        | some (Except.ok (right, c)) =>
          match skip_comments fuel c with
          | none => none
          | some (Except.error e) => some (Except.error e)
          | some (Except.ok c) => ltrLoop fuel pe ops (f left right) c
    | (none, c) => some (Except.ok (left, c))

/-- The while loop of the UnaryPostfix arm of parse_expression of
src/main.rs. -/
def postLoop : Nat → List (List Char × (Expr → Expr)) → Expr → P Expr
  | 0, _, _, _ => none
  | fuel + 1, ops, e, c =>
    match parse_unary_operator ops c with
    | (some f, c) =>
      match skip_comments fuel c with
      | none => none
      | some (Except.error er) => some (Except.error er)
      | some (Except.ok c) => postLoop fuel ops (f e) c
    | (none, c) => some (Except.ok (e, c))

/-- The argument-list loop of the call suffix in parse_expression of
src/main.rs: while the next character is not a closing parenthesis,
parse an expression (pe, the action for level 0), skip comments, and
continue past a comma or break. -/
def argsLoop : Nat → P Expr → List Expr → P (List Expr)
  | 0, _, _, _ => none
  | fuel + 1, pe, acc, c =>
    match tryCM (mNot (mChar ')')) c with
    | (true, c) =>
      match pe c with
      | none => none
      | some (Except.error e) => some (Except.error e)
      | some (Except.ok (a, c)) =>
        match skip_comments fuel c with
        | none => none
        | some (Except.error e) => some (Except.error e)
        | some (Except.ok c) =>
          match tryCM (mChar ',') c with
          | (true, c) =>
            match skip_comments fuel c with
            | none => none
            | some (Except.error e) => some (Except.error e)
            | some (Except.ok c) => argsLoop fuel pe (acc ++ [a]) c
          | (false, c) => some (Except.ok (acc ++ [a], c))
    | (false, c) => some (Except.ok (acc, c))

/-- The call-suffix loop after a primary expression in parse_expression
of src/main.rs: while an opening parenthesis parses, collect the
argument list and the closing parenthesis.  The source ends the loop
body with the comment TODO call: the parsed arguments are discarded and
the accumulated expression is returned unchanged, no Call node is
built. -/
def callSuffixLoop : Nat → P Expr → Expr → P Expr
  | 0, _, _, _ => none
  | fuel + 1, pe, expression, c =>
    match tryCM (mChar '(') c with
    | (true, c) =>
      match skip_comments fuel c with
      | none => none
      | some (Except.error e) => some (Except.error e)
      | some (Except.ok c) =>
        match argsLoop fuel pe [] c with
        | none => none
        | some (Except.error e) => some (Except.error e)
        | some (Except.ok (_arguments, c)) =>
          match parseCM (mChar ')') c with
          | Except.error e => some (Except.error e)
          | Except.ok (_, c) =>
            match skip_comments fuel c with
            | none => none
            | some (Except.error e) => some (Except.error e)
            | some (Except.ok c) => callSuffixLoop fuel pe expression c
    | (false, c) => some (Except.ok (expression, c))

/-- The tail of the primary arm of parse_expression of src/main.rs:
after the primary itself, skip comments and enter the call-suffix loop
(pe is the action for level 0). -/
def afterPrimary (fuel : Nat) (pe : P Expr) (expression : Expr) : P Expr := fun c =>
  match skip_comments fuel c with
  | none => none
  | some (Except.error e) => some (Except.error e)
  | some (Except.ok c) => callSuffixLoop fuel pe expression c

/-- The parenthesized-expression case of the primary arm of
parse_expression of src/main.rs: skip comments, parse at level 0 (pe),
skip comments, expect the closing parenthesis. -/
def parseParen (fuel : Nat) (pe : P Expr) : P Expr := fun c =>
  match skip_comments fuel c with
  | none => none
  | some (Except.error e) => some (Except.error e)
  | some (Except.ok c) =>
    match pe c with
    | none => none
    | some (Except.error e) => some (Except.error e)
    | some (Except.ok (e, c)) =>
      match skip_comments fuel c with
      | none => none
      | some (Except.error er) => some (Except.error er)
      | some (Except.ok c) =>
        match expectCM ([')']) c with
        | Except.error er => some (Except.error er)
        | Except.ok c => afterPrimary fuel pe e c

/-- The primary arm of parse_expression of src/main.rs (the branch past
the operator table): a parenthesized expression, an identifier (peek on
identifier_start_char), a number (peek on a digit), or the error
"expected an expression"; then the call suffixes. -/
def parsePrimary (fuel : Nat) (pe : P Expr) : P Expr := fun c =>
  match tryCM (mChar '(') c with
  | (true, c) => parseParen fuel pe c
  | (false, c) =>
    match tryCM (mPeek (mPred identifier_start_char)) c with
    | (true, c) =>
      match parse_identifier c with
      | Except.error e => some (Except.error e)
      | Except.ok (sl, c) => afterPrimary fuel pe (Expr.name (String.mk sl)) c
    | (false, c) =>
      match tryCM (mPeek (mRange '0' '9')) c with
      | (true, c) =>
        match parse_number c with
        | Except.error e => some (Except.error e)
        | Except.ok (sl, c) => afterPrimary fuel pe (Expr.number (String.mk sl)) c
      | (false, c) => some (Except.error ⟨c.i, ("expected an expression")⟩)

/-- The BinaryLeftToRight arm of parse_expression of src/main.rs: one
operand at the next level (pe), skip comments, then the fold loop. -/
def parseLTRLevel (fuel : Nat) (pe : P Expr) (ops : List (List Char × (Expr → Expr → Expr))) :
    P Expr := fun c =>
  match pe c with
  | none => none
  | some (Except.error e) => some (Except.error e)
  | some (Except.ok (left, c)) =>
    match skip_comments fuel c with
    | none => none
    | some (Except.error e) => some (Except.error e)
    | some (Except.ok c) => ltrLoop fuel pe ops left c

/-- The BinaryRightToLeft arm of parse_expression of src/main.rs: one
operand at the next level (peNext); if an operator of this level
parses, skip comments and recurse into the same level (peSame). -/
def parseRTLLevel (fuel : Nat) (peNext peSame : P Expr)
    (ops : List (List Char × (Expr → Expr → Expr))) : P Expr := fun c =>
  match peNext c with
  | none => none
  | some (Except.error e) => some (Except.error e)
  | some (Except.ok (left, c)) =>
    match skip_comments fuel c with
    | none => none
    | some (Except.error e) => some (Except.error e)
    | some (Except.ok c) =>
      match parse_binary_operator ops c with
      | (some f, c) =>
        match skip_comments fuel c with
        | none => none
        | some (Except.error e) => some (Except.error e)
        | some (Except.ok c) =>
          match peSame c with
          | none => none
          | some (Except.error e) => some (Except.error e)
          | some (Except.ok (right, c)) => some (Except.ok (f left right, c))
      | (none, c) => some (Except.ok (left, c))

/-- The UnaryPrefix arm of parse_expression of src/main.rs: if an
operator of this level parses, skip comments and recurse into the same
level (peSame); otherwise parse at the next level (peNext). -/
def parsePreLevel (fuel : Nat) (peSame peNext : P Expr)
    (ops : List (List Char × (Expr → Expr))) : P Expr := fun c =>
  match parse_unary_operator ops c with
  | (some f, c) =>
    match skip_comments fuel c with
    | none => none
    | some (Except.error e) => some (Except.error e)
    | some (Except.ok c) =>
      match peSame c with
      | none => none
      | some (Except.error e) => some (Except.error e)
      | some (Except.ok (e, c)) => some (Except.ok (f e, c))
  | (none, c) => peNext c

/-- The UnaryPostfix arm of parse_expression of src/main.rs: one
operand at the next level (pe), skip comments, then the postfix fold
loop. -/
def parsePostLevel (fuel : Nat) (pe : P Expr) (ops : List (List Char × (Expr → Expr))) :
    P Expr := fun c =>
  match pe c with
  | none => none
  | some (Except.error e) => some (Except.error e)
  | some (Except.ok (e, c)) =>
    match skip_comments fuel c with
    | none => none
    | some (Except.error er) => some (Except.error er)
    | some (Except.ok c) => postLoop fuel ops e c

/-- parse_expression of src/main.rs lines 100 to 201: within the
operator table (OPERATORS indexed by level, here the head of the
dropped table), dispatch on the level kind; past the table, parse a
primary followed by call suffixes. -/
def parse_expression : Nat → Nat → P Expr
  | 0, _, _ => none
  | fuel + 1, level, c =>
    match OPERATORS.drop level with
    | OperatorLevel.binaryLeftToRight ops :: _ =>
      parseLTRLevel fuel (parse_expression fuel (level + 1)) ops c
    | OperatorLevel.binaryRightToLeft ops :: _ =>
      parseRTLLevel fuel (parse_expression fuel (level + 1)) (parse_expression fuel level) ops c
    | OperatorLevel.unaryPre ops :: _ =>
      parsePreLevel fuel (parse_expression fuel level) (parse_expression fuel (level + 1)) ops c
    | OperatorLevel.unaryPost ops :: _ =>
      parsePostLevel fuel (parse_expression fuel (level + 1)) ops c
    | [] => parsePrimary fuel (parse_expression fuel 0) c

/-- Statements as src/main.rs parse_statement constructs them, plus the
VariableDeclaration variant that src/ast.rs declares (with the declared
name and the initializer).  The two files belong to different revisions
of the program: the Statement enum of src/ast.rs gives If a single
statement and an optional else and has a Block variant, while
parse_statement of src/main.rs builds If and While from a condition and
a statement list and never builds VariableDeclaration or Block; this
type takes the variants parse_statement can return together with the
VariableDeclaration shape of src/ast.rs so that claims about both can
be stated. -/
inductive PStmt : Type where
  | variableDeclaration (nm : String) (e : Expr)
  | ifS (condition : Expr) (statements : List PStmt)
  | whileS (condition : Expr) (statements : List PStmt)
  | returnS (e : Expr)
  | expression (e : Expr)
deriving Repr

/-- The statement loop of the if, while and func bodies of src/main.rs:
while the next character is not a closing brace, parse a statement (ps)
and skip comments. -/
def stmtsLoop : Nat → P PStmt → List PStmt → P (List PStmt)
  | 0, _, _, _ => none
  | fuel + 1, ps, acc, c =>
    match tryCM (mNot (mChar '}')) c with
    | (true, c) =>
      match ps c with
      | none => none
      | some (Except.error e) => some (Except.error e)
      | some (Except.ok (st, c)) =>
        match skip_comments fuel c with
        | none => none
        | some (Except.error e) => some (Except.error e)
        | some (Except.ok c) => stmtsLoop fuel ps (acc ++ [st]) c
    | (false, c) => some (Except.ok (acc, c))

/-- The let branch of parse_statement of src/main.rs lines 223 to 232:
skip comments, parse the identifier (parsed and then DISCARDED by the
source), skip comments, expect the equals sign, skip comments, parse
the initializer at level 0, skip comments, expect the semicolon — and
return Statement Expression holding only the initializer, not a
VariableDeclaration. -/
def parseLetTail (fuel : Nat) : P PStmt := fun c =>
  match skip_comments fuel c with
  | none => none
  | some (Except.error e) => some (Except.error e)
  | some (Except.ok c) =>
    match parse_identifier c with
    | Except.error e => some (Except.error e)
    | Except.ok (_, c) =>
      match skip_comments fuel c with
      | none => none
      | some (Except.error e) => some (Except.error e)
      | some (Except.ok c) =>
        match expectCM (['=']) c with
        | Except.error e => some (Except.error e)
        | Except.ok c =>
          match skip_comments fuel c with
          | none => none
          | some (Except.error e) => some (Except.error e)
          | some (Except.ok c) =>
            match parse_expression fuel 0 c with
            | none => none
            | some (Except.error e) => some (Except.error e)
            | some (Except.ok (expression, c)) =>
              match skip_comments fuel c with
              | none => none
              | some (Except.error e) => some (Except.error e)
              | some (Except.ok c) =>
                match expectCM ([';']) c with
                | Except.error e => some (Except.error e)
                | Except.ok c => some (Except.ok (PStmt.expression expression, c))

/-- The shared body parser of the if and while branches of
parse_statement of src/main.rs: expect '(', the condition at level 0,
')' and '{', parse statements up to '}', and build the result with the
given constructor (If or While with condition and statement list). -/
def parseCondBlock (fuel : Nat) (ps : P PStmt) (mk : Expr → List PStmt → PStmt) :
    P PStmt := fun c =>
  match skip_comments fuel c with
  | none => none
  | some (Except.error e) => some (Except.error e)
  | some (Except.ok c) =>
    match expectCM (['(']) c with
    | Except.error e => some (Except.error e)
    | Except.ok c =>
      match skip_comments fuel c with
      | none => none
      | some (Except.error e) => some (Except.error e)
      | some (Except.ok c) =>
        match parse_expression fuel 0 c with
        | none => none
        | some (Except.error e) => some (Except.error e)
        | some (Except.ok (condition, c)) =>
          match skip_comments fuel c with
          | none => none
          | some (Except.error e) => some (Except.error e)
          | some (Except.ok c) =>
            match expectCM ([')']) c with
            | Except.error e => some (Except.error e)
            | Except.ok c =>
              match skip_comments fuel c with
              | none => none
              | some (Except.error e) => some (Except.error e)
              | some (Except.ok c) =>
                match expectCM (['{']) c with
                | Except.error e => some (Except.error e)
                | Except.ok c =>
                  match skip_comments fuel c with
                  | none => none
                  | some (Except.error e) => some (Except.error e)
                  | some (Except.ok c) =>
                    match stmtsLoop fuel ps [] c with
                    | none => none
                    | some (Except.error e) => some (Except.error e)
                    | some (Except.ok (statements, c)) =>
                      match expectCM (['}']) c with
                      | Except.error e => some (Except.error e)
                      | Except.ok c => some (Except.ok (mk condition statements, c))

/-- The return branch of parse_statement of src/main.rs: skip comments,
the expression at level 0, skip comments, the semicolon. -/
def parseReturnTail (fuel : Nat) : P PStmt := fun c =>
  match skip_comments fuel c with
  | none => none
  | some (Except.error e) => some (Except.error e)
  | some (Except.ok c) =>
    match parse_expression fuel 0 c with
    | none => none
    | some (Except.error e) => some (Except.error e)
    | some (Except.ok (expression, c)) =>
      match skip_comments fuel c with
      | none => none
      | some (Except.error e) => some (Except.error e)
      | some (Except.ok c) =>
        match expectCM ([';']) c with
        | Except.error e => some (Except.error e)
        | Except.ok c => some (Except.ok (PStmt.returnS expression, c))

/-- The fallthrough branch of parse_statement of src/main.rs: an
expression statement, the expression at level 0 followed by comments
and the semicolon. -/
def parseExprStmt (fuel : Nat) : P PStmt := fun c =>
  match parse_expression fuel 0 c with
  | none => none
  | some (Except.error e) => some (Except.error e)
  | some (Except.ok (expression, c)) =>
    match skip_comments fuel c with
    | none => none
    | some (Except.error e) => some (Except.error e)
    | some (Except.ok c) =>
      match expectCM ([';']) c with
      | Except.error e => some (Except.error e)
      | Except.ok c => some (Except.ok (PStmt.expression expression, c))

/-- parse_statement of src/main.rs lines 222 to 285: dispatch on the
keywords let, if, while, return, with the expression statement as the
fallthrough. -/
def parse_statement : Nat → P PStmt
  | 0, _ => none
  | fuel + 1, c =>
    match tryCM (keywordM (['l', 'e', 't'])) c with
    | (true, c) => parseLetTail fuel c
    | (false, c) =>
      match tryCM (keywordM (['i', 'f'])) c with
      | (true, c) => parseCondBlock fuel (parse_statement fuel) PStmt.ifS c
      | (false, c) =>
        match tryCM (keywordM (['w', 'h', 'i', 'l', 'e'])) c with
        | (true, c) => parseCondBlock fuel (parse_statement fuel) PStmt.whileS c
        | (false, c) =>
          match tryCM (keywordM (['r', 'e', 't', 'u', 'r', 'n'])) c with
          | (true, c) => parseReturnTail fuel c
          | (false, c) => parseExprStmt fuel c

/-- Claim C1: the claim says the operator table includes a binary
left-to-right level for or-or, a higher one for and-and, and a unary
prefix level for bang, so that those inputs parse to LogicalExpression
and Not nodes.  The OPERATORS table of src/main.rs has five levels
(assignment, equality, relational, additive, multiplicative) and none
for the logical or prefix operators, although src/ast.rs declares the
LogicalExpression and Not nodes and their constructors and the type
checker handles them.  Evaluating the embedded parser at the failing
inputs: parsing bang a fails with the message expected an expression,
and parsing a or-or b (and a and-and b) consumes only the name a,
leaving the operator unconsumed, instead of producing an Or (And)
node. -/
theorem c1_logical_ops_missing :
    parse_expression 16 0 ⟨("!a").toList, 0⟩ =
      some (Except.error ⟨0, ("expected an expression")⟩) ∧
    parse_expression 16 0 ⟨("a || b").toList, 0⟩ =
      some (Except.ok (Expr.name ("a"), ⟨("a || b").toList, 2⟩)) ∧
    parse_expression 16 0 ⟨("a && b").toList, 0⟩ =
      some (Except.ok (Expr.name ("a"), ⟨("a && b").toList, 2⟩)) :=
  ⟨rfl, rfl, rfl⟩

/-- Claim C2: the claim says parsing a let statement produces a
VariableDeclaration recording the name and the initializer.  The let
branch of parse_statement in src/main.rs parses the name, discards it,
and returns Statement Expression holding only the initializer, even
though src/ast.rs declares the VariableDeclaration variant and the type
checker and code generator implement it.  Evaluating the embedded
parser at the failing input let x equals 1: the result is the
expression statement around the number 1; the name x survives only as
consumed input. -/
theorem c2_let_discards_name :
    parse_statement 16 ⟨("let x = 1;").toList, 0⟩ =
      some (Except.ok (PStmt.expression (Expr.number ("1")),
        ⟨("let x = 1;").toList, 10⟩)) :=
  rfl

/-- Claim C3: the claim says every call suffix wraps the accumulated
expression into a Call node with the parsed arguments.  The suffix loop
of parse_expression in src/main.rs parses the argument list and then
hits the source comment TODO call: the arguments are dropped and the
primary is returned unchanged.  Evaluating the embedded parser at the
failing input f of 1: the whole input is consumed (the cursor ends at
index 4, past the closing parenthesis) yet the result is the bare name
f, not a Call node. -/
theorem c3_call_suffix_discarded :
    parse_expression 16 0 ⟨("f(1)").toList, 0⟩ =
      some (Except.ok (Expr.name ("f"), ⟨("f(1)").toList, 4⟩)) :=
  rfl

/-- Claim C4: the claim says a greater-than b parses to a
RelationalExpression with operation GreaterThan and a greater-or-equal
b to GreaterThanOrEqual.  The OPERATORS table of src/main.rs pairs the
greater-than spelling with the greater_than_or_equal constructor and
the greater-or-equal spelling with greater_than, so the two operations
come out swapped. -/
theorem c4_relational_swapped :
    parse_expression 16 0 ⟨("a > b").toList, 0⟩ =
      some (Except.ok
        (Expr.relational .greaterThanOrEqual (Expr.name ("a")) (Expr.name ("b")),
        ⟨("a > b").toList, 5⟩)) ∧
    parse_expression 16 0 ⟨("a >= b").toList, 0⟩ =
      some (Except.ok
        (Expr.relational .greaterThan (Expr.name ("a")) (Expr.name ("b")),
        ⟨("a >= b").toList, 6⟩)) :=
  ⟨rfl, rfl⟩

/-- Claim C5, counterexample to the claim as stated: the claim says a
comma immediately followed by a closing parenthesis makes the call
argument list a parse error, but parsing the statement f of 1 comma
close succeeds. -/
theorem c5_trailing_comma_cex :
    ∃ st c', parse_statement 16 ⟨("f(1,);").toList, 0⟩ = some (Except.ok (st, c')) :=
  ⟨_, _, rfl⟩

/-- Claim C5 (amended): a trailing comma in a call argument list is
accepted, not rejected: after the comma the argument loop re-checks for
a closing parenthesis and simply ends the list, so f of 1 comma close
parses successfully to the end of the statement (the result is the bare
name f because the suffix discards the call, see C3). -/
theorem c5_trailing_comma_accepted :
    parse_statement 16 ⟨("f(1,);").toList, 0⟩ =
      some (Except.ok (PStmt.expression (Expr.name ("f")),
        ⟨("f(1,);").toList, 6⟩)) :=
  rfl

/-!
Part C: src/scoped_hash_map.rs, the checker-side AST of src/ast.rs and
src/type_checker.rs.
-/

/-- Type of src/ast.rs. -/
inductive Ty : Type where
  | number
  | boolean
  | void
  | cls (nm : String)
deriving DecidableEq, Repr

/-- Association-list lookup, standing in for HashMap get. -/
def lookupA {K V : Type} [DecidableEq K] : List (K × V) → K → Option V
  | [], _ => none
  | (k₀, v₀) :: rest, k => if k = k₀ then some v₀ else lookupA rest k

/-- Association-list insert, standing in for HashMap insert: replaces an
existing binding or appends a new one. -/
def insertA {K V : Type} [DecidableEq K] : List (K × V) → K → V → List (K × V)
  | [], k, v => [(k, v)]
  | (k₀, v₀) :: rest, k, v =>
    if k = k₀ then (k, v) :: rest else (k₀, v₀) :: insertA rest k v

/-- ScopedHashMap of src/scoped_hash_map.rs: a Vec of hash maps
(modelled as association lists).  The head of this list is the
innermost scope, corresponding to the last element of the source
Vec. -/
structure ScopedHashMap (K V : Type) where
  scopes : List (List (K × V))
deriving Repr

/-- new of src/scoped_hash_map.rs: a single initial empty scope. -/
def ScopedHashMap.new {K V : Type} : ScopedHashMap K V := ⟨[[]]⟩

/-- push_scope of src/scoped_hash_map.rs. -/
def ScopedHashMap.push_scope {K V : Type} (m : ScopedHashMap K V) : ScopedHashMap K V :=
  ⟨[] :: m.scopes⟩

/-- pop_scope of src/scoped_hash_map.rs: Vec pop removes the innermost
scope if there is one, and does nothing on an empty stack. -/
def ScopedHashMap.pop_scope {K V : Type} (m : ScopedHashMap K V) : ScopedHashMap K V :=
  ⟨m.scopes.tail⟩

/-- get_local of src/scoped_hash_map.rs: look only in the innermost
scope, none when the stack is empty. -/
def ScopedHashMap.get_local {K V : Type} [DecidableEq K]
    (m : ScopedHashMap K V) (k : K) : Option V :=
  match m.scopes with
  | [] => none
  | sc :: _ => lookupA sc k

/-- The innermost-first walk of get of src/scoped_hash_map.rs. -/
def getScopes {K V : Type} [DecidableEq K] : List (List (K × V)) → K → Option V
  | [], _ => none
  | sc :: rest, k =>
    match lookupA sc k with
    | some v => some v
    | none => getScopes rest k

/-- get of src/scoped_hash_map.rs. -/
def ScopedHashMap.get {K V : Type} [DecidableEq K]
    (m : ScopedHashMap K V) (k : K) : Option V :=
  getScopes m.scopes k

/-- insert of src/scoped_hash_map.rs: insert into the innermost scope
and return the previous binding there.  The source unwraps last_mut, so
an empty scope stack is a panic, modelled as none. -/
def ScopedHashMap.insert {K V : Type} [DecidableEq K]
    (m : ScopedHashMap K V) (k : K) (v : V) : Option (Option V × ScopedHashMap K V) :=
  match m.scopes with
  | [] => none
  | sc :: rest => some (lookupA sc k, ⟨insertA sc k v :: rest⟩)

/-- Statement of src/ast.rs (the revision the type checker matches: If
carries one statement and an optional else, While one statement, and
Block a list). -/
inductive TStmt : Type where
  | variableDeclaration (nm : String) (e : Expr)
  | ifS (condition : Expr) (statement : TStmt) (elseStatement : Option TStmt)
  | whileS (condition : Expr) (statement : TStmt)
  | returnS (e : Expr)
  | expression (e : Expr)
  | block (statements : List TStmt)

/-- Function of src/ast.rs. -/
structure Func where
  name : String
  arguments : List (String × Ty)
  returnType : Ty
  statements : List TStmt

/-- Class of src/ast.rs. -/
structure ClassD where
  name : String
  fields : List (String × Ty)
  methods : List Func

/-- Program of src/ast.rs.  The source location map keys on the
identity (stable address) of each expression node; the embedding
abstracts the map as a function from the node to an optional byte
offset. -/
structure Program where
  functions : List Func
  classes : List ClassD
  locations : Expr → Option Nat

/-- get_function of src/ast.rs: the first function with the given
name. -/
def Program.get_function (p : Program) (s : String) : Option Func :=
  p.functions.find? (fun f => f.name == s)

/-- get_class of src/ast.rs. -/
def Program.get_class (p : Program) (s : String) : Option ClassD :=
  p.classes.find? (fun c => c.name == s)

/-- get_method of src/ast.rs. -/
def ClassD.get_method (c : ClassD) (nm : String) : Option Func :=
  c.methods.find? (fun f => f.name == nm)

/-- get_field of src/ast.rs. -/
def ClassD.get_field (c : ClassD) (nm : String) : Option Ty :=
  (c.fields.find? (fun p => p.1 == nm)).map (fun p => p.2)

/-- Context of src/type_checker.rs.  The source field is named
variables; that spelling is reserved at declaration position in this
formalisation's language, so the field is vars here. -/
structure Ctx where
  vars : ScopedHashMap String Ty
  program : Program

/-- Error of src/error.rs as the type checker builds it: a byte offset
and a message. -/
structure TErr where
  i : Nat
  msg : String
deriving DecidableEq, Repr

/-- error of src/type_checker.rs lines 226 to 233: look the offending
expression node up in the location map of the program and default a
missing entry to offset 0 (unwrap_or_default); this never panics. -/
def errorT (ctx : Ctx) (e : Expr) (msg : String) : TErr :=
  ⟨(ctx.program.locations e).getD 0, msg⟩

/-- Debug rendering of Type, as the error messages of
src/type_checker.rs format it. -/
def tyName : Ty → String
  | .number => ("Number")
  | .boolean => ("Boolean")
  | .void => ("Void")
  | .cls nm => ("Class(\"" ++ nm ++ "\")")

mutual

/-- check_expression of src/type_checker.rs.  The source takes the
context by mutable borrow but only ever reads it (get and get_local);
it never inserts and never pushes or pops scopes, so it is embedded as
a read-only function. -/
def check_expression (ctx : Ctx) : Expr → Except TErr Ty
  | .number _ => Except.ok Ty.number
  | .name s =>
    match ctx.vars.get s with
    | none => Except.error (errorT ctx (.name s) ("undefined variable \"" ++ s ++ "\""))
    | some ty => Except.ok ty
  | .arithmetic _ l r =>
    match assert_type ctx l Ty.number with
    | Except.error er => Except.error er
    | Except.ok _ =>
      match assert_type ctx r Ty.number with
      | Except.error er => Except.error er
      | Except.ok _ => Except.ok Ty.number
  | .relational _ l r =>
    match assert_type ctx l Ty.number with
    | Except.error er => Except.error er
    | Except.ok _ =>
      match assert_type ctx r Ty.number with
      | Except.error er => Except.error er
      | Except.ok _ => Except.ok Ty.boolean
  | .logical _ l r =>
    match assert_type ctx l Ty.boolean with
    | Except.error er => Except.error er
    | Except.ok _ =>
      match assert_type ctx r Ty.boolean with
      | Except.error er => Except.error er
      | Except.ok _ => Except.ok Ty.boolean
  | .notE e₁ =>
    match assert_type ctx e₁ Ty.boolean with
    | Except.error er => Except.error er
    | Except.ok _ => Except.ok Ty.boolean
  | .assign nm e₁ =>
    match nm with
    | .name s =>
      match ctx.vars.get s with
      | some ty =>
        match assert_type ctx e₁ ty with
        | Except.error er => Except.error er
        | Except.ok _ => Except.ok ty
      | none =>
        Except.error (errorT ctx (.name s) ("undefined variable \"" ++ s ++ "\""))
    | _ => Except.error (errorT ctx nm ("left hand of an assignment must be a name"))
  | .call f args =>
    match f with
    | .name s =>
      match ctx.program.get_function s with
      | some fd =>
        match check_arguments ctx (.name s) fd args with
        | Except.error er => Except.error er
        | Except.ok _ => Except.ok fd.returnType
      | none =>
        Except.error (errorT ctx (.name s) ("undefined function \"" ++ s ++ "\""))
    | _ => Except.error (errorT ctx f ("left hand of a call must be a name"))
  | .classInstantiation cls args =>
    match ctx.program.get_class cls with
    | some c =>
      match c.get_method ("constructor") with
      | some fd =>
        match check_arguments ctx (.classInstantiation cls args) fd args with
        | Except.error er => Except.error er
        | Except.ok _ => Except.ok (Ty.cls cls)
      | none =>
        if args.length ≠ 0 then
          Except.error (errorT ctx (.classInstantiation cls args) ("invalid number of arguments"))
        else Except.ok (Ty.cls cls)
    | none =>
      Except.error (errorT ctx (.classInstantiation cls args) ("undefined class \"" ++ cls ++ "\""))
  | .propertyAccess obj prop =>
    match check_expression ctx obj with
    | Except.error er => Except.error er
    | Except.ok ty =>
      match ty with
      | Ty.cls c =>
        match ctx.program.get_class c with
        | some cd =>
          match cd.get_field prop with
          | some fty => Except.ok fty
          | none =>
            Except.error (errorT ctx (.propertyAccess obj prop)
              ("class \"" ++ c ++ "\" does not have a field \"" ++ prop ++ "\""))
        | none =>
          Except.error (errorT ctx (.propertyAccess obj prop)
            ("undefined class \"" ++ c ++ "\""))
      | _ =>
        Except.error (errorT ctx (.propertyAccess obj prop)
          ("trying to access a property on an expression that is not a class"))
  | .methodCall obj meth args =>
    match check_expression ctx obj with
    | Except.error er => Except.error er
    | Except.ok ty =>
      match ty with
      | Ty.cls c =>
        match ctx.program.get_class c with
        | some cd =>
          match cd.get_method meth with
          | some fd =>
            match check_arguments ctx (.methodCall obj meth args) fd args with
            | Except.error er => Except.error er
            | Except.ok _ => Except.ok fd.returnType
          | none =>
            Except.error (errorT ctx (.methodCall obj meth args)
              ("class \"" ++ c ++ "\" does not have a method \"" ++ meth ++ "\""))
        | none =>
          Except.error (errorT ctx (.methodCall obj meth args)
            ("undefined class \"" ++ c ++ "\""))
      | _ =>
        Except.error (errorT ctx (.methodCall obj meth args)
          ("trying to access a property on an expression that is not a class"))
  | .this =>
    match ctx.vars.get ("this") with
    | none => Except.error (errorT ctx .this ("this is not available outside of a method"))
    | some ty => Except.ok ty
termination_by e => (sizeOf e, 2)

/-- check_arguments of src/type_checker.rs: the count check, then the
ordered per-argument type checks. -/
def check_arguments (ctx : Ctx) (e : Expr) (f : Func) (args : List Expr) : Except TErr Unit :=
  if args.length ≠ f.arguments.length then
    Except.error (errorT ctx e ("invalid number of arguments"))
  else
    check_args_loop ctx args (f.arguments.map (fun p => p.2))
termination_by (sizeOf args, 1)

/-- The zip loop of check_arguments. -/
def check_args_loop (ctx : Ctx) : List Expr → List Ty → Except TErr Unit
  | [], _ => Except.ok ()
  | _ :: _, [] => Except.ok ()
  | a :: rest, t :: ts =>
    match check_expression ctx a with
    | Except.error er => Except.error er
    | Except.ok actual =>
      if actual = t then check_args_loop ctx rest ts
      else
        Except.error (errorT ctx a
          ("invalid argument type: expected " ++ tyName t ++ " but found " ++ tyName actual))
termination_by args _ => (sizeOf args, 0)

/-- assert_type of src/type_checker.rs. -/
def assert_type (ctx : Ctx) (e : Expr) (expected : Ty) : Except TErr Unit :=
  match check_expression ctx e with
  | Except.error er => Except.error er
  | Except.ok actual =>
    if actual = expected then Except.ok ()
    else
      Except.error (errorT ctx e
        ("type mismatch: expected a " ++ tyName expected ++ " but found a " ++ tyName actual))
termination_by (sizeOf e, 3)

end

/-- The question-mark operator of the statement checker of
src/type_checker.rs: on a successful sub-check continue with the
updated context; an error (or a panic) propagates as is, carrying the
context as it stood when the early return fired. -/
def seqOk (x : Option (Except TErr Unit × Ctx))
    (k : Ctx → Option (Except TErr Unit × Ctx)) : Option (Except TErr Unit × Ctx) :=
  match x with
  | none => none
  | some (Except.error er, ctx₁) => some (Except.error er, ctx₁)
  | some (Except.ok _, ctx₁) => k ctx₁

mutual

/-- check_statement of src/type_checker.rs.  The context is threaded on
every path, matching the mutable borrow of the source: the result none
models the panic of ScopedHashMap insert on an empty scope stack, and
an error result carries the context exactly as it stood when the
question-mark operator propagated the error (in particular, a scope
pushed by an enclosing Block arm stays on the stack, because the early
return skips pop_scope). -/
def check_statement (ctx : Ctx) : TStmt → Option (Except TErr Unit × Ctx)
  | .variableDeclaration nm e =>
    match ctx.vars.get_local nm with
    | some _ =>
      some (Except.error (errorT ctx e ("variable \"" ++ nm ++ "\" already defined")), ctx)
    | none =>
      match check_expression ctx e with
      | Except.error er => some (Except.error er, ctx)
      | Except.ok ty =>
        match ctx.vars.insert nm ty with
        | none => none
        | some (_, m) => some (Except.ok (), { ctx with vars := m })
  | .ifS condition statement elseStatement =>
    match assert_type ctx condition Ty.boolean with
    | Except.error er => some (Except.error er, ctx)
    | Except.ok _ =>
      seqOk (check_statement ctx statement) (fun ctx₁ =>
        match elseStatement with
        | none => some (Except.ok (), ctx₁)
        | some s => check_statement ctx₁ s)
  | .whileS condition statement =>
    match assert_type ctx condition Ty.boolean with
    | Except.error er => some (Except.error er, ctx)
    | Except.ok _ => check_statement ctx statement
  | .returnS e =>
    match check_expression ctx e with
    | Except.error er => some (Except.error er, ctx)
    | Except.ok _ => some (Except.ok (), ctx)
  | .expression e =>
    match check_expression ctx e with
    | Except.error er => some (Except.error er, ctx)
    | Except.ok _ => some (Except.ok (), ctx)
  | .block statements =>
    seqOk (check_stmts_loop { ctx with vars := ctx.vars.push_scope } statements)
      (fun ctx₁ => some (Except.ok (), { ctx₁ with vars := ctx₁.vars.pop_scope }))
termination_by st => sizeOf st

/-- The sequential statement loop shared by check_function and the
Block arm of check_statement (a for loop whose body may early-return
through the question mark). -/
def check_stmts_loop (ctx : Ctx) : List TStmt → Option (Except TErr Unit × Ctx)
  | [] => some (Except.ok (), ctx)
  | st :: rest =>
    seqOk (check_statement ctx st) (fun ctx₁ => check_stmts_loop ctx₁ rest)
termination_by l => sizeOf l

end

/-- The parameter-binding loop at the top of check_function of
src/type_checker.rs. -/
def insert_params (ctx : Ctx) : List (String × Ty) → Option Ctx
  | [] => some ctx
  | (nm, ty) :: rest =>
    match ctx.vars.insert nm ty with
    | none => none
    | some (_, m) => insert_params { ctx with vars := m } rest

/-- check_function of src/type_checker.rs: push a scope, bind each
parameter to its declared type, check the statements in order, pop the
scope.  On the error path the question-mark operator returns before
pop_scope runs. -/
def check_function (ctx : Ctx) (f : Func) : Option (Except TErr Unit × Ctx) :=
  match insert_params { ctx with vars := ctx.vars.push_scope } f.arguments with
  | none => none
  | some ctx₁ =>
    match check_stmts_loop ctx₁ f.statements with
    | none => none
    | some (Except.error er, ctx₂) => some (Except.error er, ctx₂)
    | some (Except.ok _, ctx₂) =>
      some (Except.ok (), { ctx₂ with vars := ctx₂.vars.pop_scope })

/-- The method loop of check_class of src/type_checker.rs. -/
def check_fns_loop (ctx : Ctx) : List Func → Option (Except TErr Unit × Ctx)
  | [] => some (Except.ok (), ctx)
  | f :: rest =>
    match check_function ctx f with
    | none => none
    | some (Except.error er, ctx₁) => some (Except.error er, ctx₁)
    | some (Except.ok _, ctx₁) => check_fns_loop ctx₁ rest

/-- check_class of src/type_checker.rs: push a scope, bind this to the
class type, check each method as a function, pop the scope.  On the
error path the question-mark operator returns before pop_scope runs. -/
def check_class (ctx : Ctx) (cl : ClassD) : Option (Except TErr Unit × Ctx) :=
  match (ctx.vars.push_scope).insert ("this") (Ty.cls cl.name) with
  | none => none
  | some (_, m) =>
    match check_fns_loop { ctx with vars := m } cl.methods with
    | none => none
    | some (Except.error er, ctx₁) => some (Except.error er, ctx₁)
    | some (Except.ok _, ctx₁) =>
      some (Except.ok (), { ctx₁ with vars := ctx₁.vars.pop_scope })

/-- The class loop of type_check of src/type_checker.rs. -/
def check_cls_loop (ctx : Ctx) : List ClassD → Option (Except TErr Unit × Ctx)
  | [] => some (Except.ok (), ctx)
  | c :: rest =>
    match check_class ctx c with
    | none => none
    | some (Except.error er, ctx₁) => some (Except.error er, ctx₁)
    | some (Except.ok _, ctx₁) => check_cls_loop ctx₁ rest

/-- type_check of src/type_checker.rs: a fresh context with a single
empty scope, then every function and every class in source order,
stopping at the first error. -/
def type_check (p : Program) : Option (Except TErr Unit × Ctx) :=
  match check_fns_loop ⟨ScopedHashMap.new, p⟩ p.functions with
  | none => none
  | some (Except.error er, ctx₁) => some (Except.error er, ctx₁)
  | some (Except.ok _, ctx₁) =>
    match check_cls_loop ctx₁ p.classes with
    | none => none
    | some (Except.error er, ctx₂) => some (Except.error er, ctx₂)
    | some (Except.ok _, ctx₂) => some (Except.ok (), ctx₂)

/-- A successful insert never changes the number of scopes. -/
theorem insert_scopes_length {K V : Type} [DecidableEq K]
    (m : ScopedHashMap K V) (k : K) (v : V) (old : Option V) (m' : ScopedHashMap K V)
    (h : m.insert k v = some (old, m')) : m'.scopes.length = m.scopes.length := by
  unfold ScopedHashMap.insert at h
  cases hm : m.scopes with
  | nil => rw [hm] at h; exact absurd h (by simp)
  | cons sc rest =>
    rw [hm] at h
    simp only [Option.some.injEq, Prod.mk.injEq] at h
    obtain ⟨_, h₂⟩ := h
    rw [← h₂]
    simp [hm]

/-- Binding the parameters never changes the number of scopes. -/
theorem insert_params_length : ∀ (l : List (String × Ty)) (ctx ctx' : Ctx),
    insert_params ctx l = some ctx' →
    ctx'.vars.scopes.length = ctx.vars.scopes.length := by
  intro l
  induction l with
  | nil =>
    intro ctx ctx' h
    simp only [insert_params, Option.some.injEq] at h
    rw [← h]
  | cons p rest ih =>
    intro ctx ctx' h
    obtain ⟨nm, ty⟩ := p
    simp only [insert_params] at h
    cases hi : ctx.vars.insert nm ty with
    | none => rw [hi] at h; exact absurd h (by simp)
    | some pr =>
      obtain ⟨old, m⟩ := pr
      rw [hi] at h
      have h₁ := ih _ _ h
      have h₂ := insert_scopes_length ctx.vars nm ty old m hi
      simp only at h₁
      omega

mutual

/-- Depth behaviour of check_statement: when the check returns (no
panic), the scope-stack depth never drops below the entry depth, and on
the success path it equals the entry depth exactly. -/
theorem check_statement_depth (st : TStmt) :
    ∀ (ctx : Ctx) (r : Except TErr Unit) (ctx' : Ctx),
      check_statement ctx st = some (r, ctx') →
      ctx.vars.scopes.length ≤ ctx'.vars.scopes.length ∧
      (r = Except.ok () → ctx'.vars.scopes.length = ctx.vars.scopes.length) := by
  intro ctx r ctx' h
  cases st with
  | variableDeclaration nm e =>
    simp only [check_statement] at h
    split at h
    · simp only [Option.some.injEq, Prod.mk.injEq] at h
      obtain ⟨hr, hc⟩ := h; subst hc; subst hr
      exact ⟨le_rfl, fun hk => by simp at hk⟩
    · split at h
      · simp only [Option.some.injEq, Prod.mk.injEq] at h
        obtain ⟨hr, hc⟩ := h; subst hc; subst hr
        exact ⟨le_rfl, fun hk => by simp at hk⟩
      · split at h
        · exact absurd h (by simp)
        · next old m heq =>
          simp only [Option.some.injEq, Prod.mk.injEq] at h
          obtain ⟨hr, hc⟩ := h; subst hr
          have hlen := insert_scopes_length ctx.vars nm _ old m heq
          rw [← hc]
          simp only
          exact ⟨le_of_eq hlen.symm, fun _ => hlen⟩
  | ifS condition statement elseStatement =>
    simp only [check_statement, seqOk] at h
    split at h
    · simp only [Option.some.injEq, Prod.mk.injEq] at h
      obtain ⟨hr, hc⟩ := h; subst hc; subst hr
      exact ⟨le_rfl, fun hk => by simp at hk⟩
    · split at h
      · exact absurd h (by simp)
      · next er ctx₁ heq =>
        have ih₁ := check_statement_depth statement ctx _ _ heq
        simp only [Option.some.injEq, Prod.mk.injEq] at h
        obtain ⟨hr, hc⟩ := h; subst hc; subst hr
        exact ⟨ih₁.1, fun hk => by simp at hk⟩
      · next u ctx₁ heq =>
        have ih₁ := check_statement_depth statement ctx _ _ heq
        have e₁ := ih₁.2 rfl
        cases elseStatement with
        | none =>
          simp only [Option.some.injEq, Prod.mk.injEq] at h
          obtain ⟨hr, hc⟩ := h; subst hc; subst hr
          exact ⟨le_of_eq e₁.symm, fun _ => e₁⟩
        | some s =>
          have ih₂ := check_statement_depth s ctx₁ r ctx' h
          refine ⟨le_trans ih₁.1 ih₂.1, fun hk => ?_⟩
          have e₂ := ih₂.2 hk
          omega
  | whileS condition statement =>
    simp only [check_statement] at h
    split at h
    · simp only [Option.some.injEq, Prod.mk.injEq] at h
      obtain ⟨hr, hc⟩ := h; subst hc; subst hr
      exact ⟨le_rfl, fun hk => by simp at hk⟩
    · exact check_statement_depth statement ctx r ctx' h
  | returnS e =>
    simp only [check_statement] at h
    split at h
    · simp only [Option.some.injEq, Prod.mk.injEq] at h
      obtain ⟨hr, hc⟩ := h; subst hc; subst hr
      exact ⟨le_rfl, fun hk => by simp at hk⟩
    · simp only [Option.some.injEq, Prod.mk.injEq] at h
      obtain ⟨hr, hc⟩ := h; subst hc
      exact ⟨le_rfl, fun _ => rfl⟩
  | expression e =>
    simp only [check_statement] at h
    split at h
    · simp only [Option.some.injEq, Prod.mk.injEq] at h
      obtain ⟨hr, hc⟩ := h; subst hc; subst hr
      exact ⟨le_rfl, fun hk => by simp at hk⟩
    · simp only [Option.some.injEq, Prod.mk.injEq] at h
      obtain ⟨hr, hc⟩ := h; subst hc
      exact ⟨le_rfl, fun _ => rfl⟩
  | block statements =>
    simp only [check_statement, seqOk] at h
    split at h
    · exact absurd h (by simp)
    · next er ctx₁ heq =>
      have ih₁ := check_stmts_loop_depth statements _ _ _ heq
      simp only [Option.some.injEq, Prod.mk.injEq] at h
      obtain ⟨hr, hc⟩ := h; subst hc; subst hr
      have hpush : ({ ctx with vars := ctx.vars.push_scope } : Ctx).vars.scopes.length
          = ctx.vars.scopes.length + 1 := by
        simp [ScopedHashMap.push_scope]
      refine ⟨?_, fun hk => by simp at hk⟩
      have := ih₁.1
      omega
    · next u ctx₁ heq =>
      have ih₁ := check_stmts_loop_depth statements _ _ _ heq
      have e₁ := ih₁.2 rfl
      simp only [Option.some.injEq, Prod.mk.injEq] at h
      obtain ⟨hr, hc⟩ := h; subst hr
      have hpush : ({ ctx with vars := ctx.vars.push_scope } : Ctx).vars.scopes.length
          = ctx.vars.scopes.length + 1 := by
        simp [ScopedHashMap.push_scope]
      have hpop : ({ ctx₁ with vars := ctx₁.vars.pop_scope } : Ctx).vars.scopes.length
          = ctx₁.vars.scopes.length - 1 := by
        simp [ScopedHashMap.pop_scope]
      rw [← hc]
      constructor
      · omega
      · intro _
        omega

/-- Depth behaviour of the statement loop. -/
theorem check_stmts_loop_depth (l : List TStmt) :
    ∀ (ctx : Ctx) (r : Except TErr Unit) (ctx' : Ctx),
      check_stmts_loop ctx l = some (r, ctx') →
      ctx.vars.scopes.length ≤ ctx'.vars.scopes.length ∧
      (r = Except.ok () → ctx'.vars.scopes.length = ctx.vars.scopes.length) := by
  intro ctx r ctx' h
  cases l with
  | nil =>
    simp only [check_stmts_loop, Option.some.injEq, Prod.mk.injEq] at h
    obtain ⟨hr, hc⟩ := h; subst hc
    exact ⟨le_rfl, fun _ => rfl⟩
  | cons st rest =>
    simp only [check_stmts_loop, seqOk] at h
    split at h
    · exact absurd h (by simp)
    · next er ctx₁ heq =>
      have ih₁ := check_statement_depth st ctx _ _ heq
      simp only [Option.some.injEq, Prod.mk.injEq] at h
      obtain ⟨hr, hc⟩ := h; subst hc; subst hr
      exact ⟨ih₁.1, fun hk => by simp at hk⟩
    · next u ctx₁ heq =>
      have ih₁ := check_statement_depth st ctx _ _ heq
      have e₁ := ih₁.2 rfl
      have ih₂ := check_stmts_loop_depth rest ctx₁ r ctx' h
      refine ⟨le_trans ih₁.1 ih₂.1, fun hk => ?_⟩
      have e₂ := ih₂.2 hk
      omega

end

/-- Depth behaviour of check_function: equal depth on success, at least
one unpopped scope on the error path. -/
theorem check_function_depth (ctx : Ctx) (f : Func) (r : Except TErr Unit) (ctx' : Ctx)
    (h : check_function ctx f = some (r, ctx')) :
    (r = Except.ok () → ctx'.vars.scopes.length = ctx.vars.scopes.length) ∧
    (∀ er, r = Except.error er → ctx.vars.scopes.length < ctx'.vars.scopes.length) := by
  unfold check_function at h
  split at h
  · exact absurd h (by simp)
  · next ctx₁ heq =>
    have hp := insert_params_length _ _ _ heq
    have hpush : ({ ctx with vars := ctx.vars.push_scope } : Ctx).vars.scopes.length
        = ctx.vars.scopes.length + 1 := by
      simp [ScopedHashMap.push_scope]
    split at h
    · exact absurd h (by simp)
    · next er ctx₂ heq₂ =>
      have hl := check_stmts_loop_depth _ _ _ _ heq₂
      simp only [Option.some.injEq, Prod.mk.injEq] at h
      obtain ⟨hr, hc⟩ := h; subst hc; subst hr
      refine ⟨fun hk => by simp at hk, fun er' hk => ?_⟩
      have := hl.1
      omega
    · next u ctx₂ heq₂ =>
      have hl := check_stmts_loop_depth _ _ _ _ heq₂
      have e₁ := hl.2 rfl
      simp only [Option.some.injEq, Prod.mk.injEq] at h
      obtain ⟨hr, hc⟩ := h; subst hr
      have hpop : ({ ctx₂ with vars := ctx₂.vars.pop_scope } : Ctx).vars.scopes.length
          = ctx₂.vars.scopes.length - 1 := by
        simp [ScopedHashMap.pop_scope]
      rw [← hc]
      refine ⟨fun _ => ?_, fun er hk => by simp at hk⟩
      omega

/-- Depth behaviour of the method and function loops. -/
theorem check_fns_loop_depth : ∀ (l : List Func) (ctx : Ctx) (r : Except TErr Unit) (ctx' : Ctx),
    check_fns_loop ctx l = some (r, ctx') →
    (r = Except.ok () → ctx'.vars.scopes.length = ctx.vars.scopes.length) ∧
    (∀ er, r = Except.error er → ctx.vars.scopes.length < ctx'.vars.scopes.length) := by
  intro l
  induction l with
  | nil =>
    intro ctx r ctx' h
    simp only [check_fns_loop, Option.some.injEq, Prod.mk.injEq] at h
    obtain ⟨hr, hc⟩ := h; subst hc; subst hr
    exact ⟨fun _ => rfl, fun er hk => by simp at hk⟩
  | cons f rest ih =>
    intro ctx r ctx' h
    simp only [check_fns_loop] at h
    split at h
    · exact absurd h (by simp)
    · next er ctx₁ heq =>
      have hf := check_function_depth ctx f _ _ heq
      simp only [Option.some.injEq, Prod.mk.injEq] at h
      obtain ⟨hr, hc⟩ := h; subst hc; subst hr
      exact ⟨fun hk => by simp at hk, fun er' hk => hf.2 er rfl⟩
    · next u ctx₁ heq =>
      have hf := check_function_depth ctx f _ _ heq
      have e₁ := hf.1 rfl
      have ih₂ := ih ctx₁ r ctx' h
      refine ⟨fun hk => ?_, fun er hk => ?_⟩
      · have := ih₂.1 hk; omega
      · have := ih₂.2 er hk; omega

/-- Depth behaviour of check_class: equal depth on success, at least
one unpopped scope on the error path. -/
theorem check_class_depth (ctx : Ctx) (cl : ClassD) (r : Except TErr Unit) (ctx' : Ctx)
    (h : check_class ctx cl = some (r, ctx')) :
    (r = Except.ok () → ctx'.vars.scopes.length = ctx.vars.scopes.length) ∧
    (∀ er, r = Except.error er → ctx.vars.scopes.length < ctx'.vars.scopes.length) := by
  unfold check_class at h
  split at h
  · exact absurd h (by simp)
  · next old m heq =>
    have hm := insert_scopes_length _ _ _ _ _ heq
    have hpush : (ctx.vars.push_scope).scopes.length = ctx.vars.scopes.length + 1 := by
      simp [ScopedHashMap.push_scope]
    have hmv : ({ ctx with vars := m } : Ctx).vars.scopes.length
        = m.scopes.length := by simp
    split at h
    · exact absurd h (by simp)
    · next er ctx₂ heq₂ =>
      have hl := check_fns_loop_depth _ _ _ _ heq₂
      simp only [Option.some.injEq, Prod.mk.injEq] at h
      obtain ⟨hr, hc⟩ := h; subst hc; subst hr
      refine ⟨fun hk => by simp at hk, fun er' hk => ?_⟩
      have h₁ := hl.2 er rfl
      omega
    · next u ctx₂ heq₂ =>
      have hl := check_fns_loop_depth _ _ _ _ heq₂
      have e₁ := hl.1 rfl
      simp only [Option.some.injEq, Prod.mk.injEq] at h
      obtain ⟨hr, hc⟩ := h; subst hr
      have hpop : ({ ctx₂ with vars := ctx₂.vars.pop_scope } : Ctx).vars.scopes.length
          = ctx₂.vars.scopes.length - 1 := by
        simp [ScopedHashMap.pop_scope]
      rw [← hc]
      refine ⟨fun _ => ?_, fun er hk => by simp at hk⟩
      omega

/-- Depth behaviour of the Block arm of check_statement: equal depth on
success, at least one unpopped scope on the error path. -/
theorem check_block_depth (ctx : Ctx) (l : List TStmt) (r : Except TErr Unit) (ctx' : Ctx)
    (h : check_statement ctx (TStmt.block l) = some (r, ctx')) :
    (r = Except.ok () → ctx'.vars.scopes.length = ctx.vars.scopes.length) ∧
    (∀ er, r = Except.error er → ctx.vars.scopes.length < ctx'.vars.scopes.length) := by
  simp only [check_statement, seqOk] at h
  split at h
  · exact absurd h (by simp)
  · next er ctx₁ heq =>
    have hl := check_stmts_loop_depth _ _ _ _ heq
    have hpush : ({ ctx with vars := ctx.vars.push_scope } : Ctx).vars.scopes.length
        = ctx.vars.scopes.length + 1 := by
      simp [ScopedHashMap.push_scope]
    simp only [Option.some.injEq, Prod.mk.injEq] at h
    obtain ⟨hr, hc⟩ := h; subst hc; subst hr
    refine ⟨fun hk => by simp at hk, fun er' hk => ?_⟩
    have := hl.1
    omega
  · next u ctx₁ heq =>
    have hl := check_stmts_loop_depth _ _ _ _ heq
    have e₁ := hl.2 rfl
    have hpush : ({ ctx with vars := ctx.vars.push_scope } : Ctx).vars.scopes.length
        = ctx.vars.scopes.length + 1 := by
      simp [ScopedHashMap.push_scope]
    have hpop : ({ ctx₁ with vars := ctx₁.vars.pop_scope } : Ctx).vars.scopes.length
        = ctx₁.vars.scopes.length - 1 := by
      simp [ScopedHashMap.pop_scope]
    simp only [Option.some.injEq, Prod.mk.injEq] at h
    obtain ⟨hr, hc⟩ := h; subst hr
    rw [← hc]
    refine ⟨fun _ => ?_, fun er hk => by simp at hk⟩
    omega

/-- Claim C8, counterexample to the claim as stated.  Checking the
function f with body consisting of the expression statement naming the
undefined variable y, from the fresh context (one scope): the check
fails, and on that error path the scope pushed on entry is never
popped, so the check returns with depth 2 although it was entered at
depth 1 — the claim's assertion for the error path is false. -/
theorem c8_error_path_cex :
    ∃ er ctx', check_function ⟨ScopedHashMap.new, ⟨[], [], fun _ => none⟩⟩
        ⟨("f"), [], Ty.void, [TStmt.expression (Expr.name ("y"))]⟩ =
        some (Except.error er, ctx') ∧
      ctx'.vars.scopes.length = 2 ∧
      ((⟨ScopedHashMap.new, ⟨[], [], fun _ => none⟩⟩ : Ctx)).vars.scopes.length = 1 := by
  refine ⟨⟨0, ("undefined variable \"y\"")⟩, ⟨⟨[[], []]⟩, ⟨[], [], fun _ => none⟩⟩, ?_, rfl, rfl⟩
  simp [check_function, insert_params, check_stmts_loop, check_statement, check_expression,
    seqOk, ScopedHashMap.new, ScopedHashMap.push_scope, ScopedHashMap.get, getScopes, lookupA,
    errorT]

/-- Claim C8 (amended): for every function check, class check, and
block check, the scope-stack depth when the check returns equals the
depth on entry on the success path; on the error path the
question-mark operator returns before pop_scope runs, so the depth is
strictly greater than on entry (never restored, never below). -/
theorem c8_scope_depth :
    (∀ (ctx : Ctx) (f : Func) (r : Except TErr Unit) (ctx' : Ctx),
      check_function ctx f = some (r, ctx') →
      (r = Except.ok () → ctx'.vars.scopes.length = ctx.vars.scopes.length) ∧
      (∀ er, r = Except.error er →
        ctx.vars.scopes.length < ctx'.vars.scopes.length)) ∧
    (∀ (ctx : Ctx) (cl : ClassD) (r : Except TErr Unit) (ctx' : Ctx),
      check_class ctx cl = some (r, ctx') →
      (r = Except.ok () → ctx'.vars.scopes.length = ctx.vars.scopes.length) ∧
      (∀ er, r = Except.error er →
        ctx.vars.scopes.length < ctx'.vars.scopes.length)) ∧
    (∀ (ctx : Ctx) (l : List TStmt) (r : Except TErr Unit) (ctx' : Ctx),
      check_statement ctx (TStmt.block l) = some (r, ctx') →
      (r = Except.ok () → ctx'.vars.scopes.length = ctx.vars.scopes.length) ∧
      (∀ er, r = Except.error er →
        ctx.vars.scopes.length < ctx'.vars.scopes.length)) :=
  ⟨check_function_depth, check_class_depth, check_block_depth⟩

/-- Witness for c8_scope_depth: checking the empty function main from
the fresh one-scope context succeeds and restores the depth to 1. -/
theorem c8_scope_depth_witness :
    ∃ ctx', check_function ⟨ScopedHashMap.new, ⟨[], [], fun _ => none⟩⟩
        ⟨("main"), [], Ty.void, []⟩ = some (Except.ok (), ctx') ∧
      ctx'.vars.scopes.length =
        ((⟨ScopedHashMap.new, ⟨[], [], fun _ => none⟩⟩ : Ctx)).vars.scopes.length := by
  have heval : check_function ⟨ScopedHashMap.new, ⟨[], [], fun _ => none⟩⟩
      ⟨("main"), [], Ty.void, []⟩ =
      some (Except.ok (), ⟨⟨[[]]⟩, ⟨[], [], fun _ => none⟩⟩) := by
    simp [check_function, insert_params, check_stmts_loop, seqOk, ScopedHashMap.new,
      ScopedHashMap.push_scope, ScopedHashMap.pop_scope]
  exact ⟨_, heval, (c8_scope_depth.1 _ _ _ _ heval).1 rfl⟩

/-- Claim C9: the error builder of the type checker reads the location
map at the offending expression node; a missing entry yields offset 0
(unwrap_or_default) and never a crash (errorT is total), and a present
entry yields exactly that offset.  The message is carried unchanged. -/
theorem c9_error_location (ctx : Ctx) (e : Expr) (msg : String) :
    (ctx.program.locations e = none → (errorT ctx e msg).i = 0) ∧
    (∀ l, ctx.program.locations e = some l → (errorT ctx e msg).i = l) ∧
    (errorT ctx e msg).msg = msg := by
  refine ⟨?_, ?_, rfl⟩
  · intro h; simp [errorT, h]
  · intro l h; simp [errorT, h]

/-- Witness for c9_error_location: with an empty location map the error
carries offset 0; with a map sending every node to 7 it carries 7. -/
theorem c9_error_location_witness :
    (errorT ⟨ScopedHashMap.new, ⟨[], [], fun _ => none⟩⟩ Expr.this ("m")).i = 0 ∧
    (errorT ⟨ScopedHashMap.new, ⟨[], [], fun _ => some 7⟩⟩ Expr.this ("m")).i = 7 :=
  ⟨(c9_error_location _ _ _).1 rfl, (c9_error_location _ _ _).2.1 7 rfl⟩

/-- Claim C10: popping the sole initial scope (sc is its content)
leaves the scope stack empty; in that state get_local and get return
none for every key, and insert panics (modelled as none, the unwrap of
last_mut on an empty Vec) instead of returning a value. -/
theorem c10_pop_initial_scope (sc : List (String × Ty)) (k : String) (v : Ty) :
    ((ScopedHashMap.mk [sc] : ScopedHashMap String Ty).pop_scope).scopes = [] ∧
    ((ScopedHashMap.mk [sc] : ScopedHashMap String Ty).pop_scope).get_local k = none ∧
    ((ScopedHashMap.mk [sc] : ScopedHashMap String Ty).pop_scope).get k = none ∧
    ((ScopedHashMap.mk [sc] : ScopedHashMap String Ty).pop_scope).insert k v = none :=
  ⟨rfl, rfl, rfl, rfl⟩

end Superscript
